import Mathlib

/-!
Verification of the lyrics-DSL repository (dslyrics).

Source layout:
  src/src/parser.rs  - entry point parse_lyrics, driving a pest grammar
                       declared as grammar = "lyrics.pest"; the grammar file
                       itself is not shipped under src/, so the grammar is
                       modelled from the specification (sections 4.1 and 4.2).
  src/src/main.rs    - CLI glue and the interactive per-line classifier
                       (regex patterns over bracketed markers).
  src/tests/parser.rs - integration tests for parse_lyrics.

Strings are modelled as lists of characters; offsets count characters,
which coincides with byte offsets on the ASCII inputs exercised by the
tests and claims.
-/

namespace Dslyrics

/-- A grammar-engine failure: furthest offset reached plus the set
(list) of expected-token descriptions at that offset. -/
abbrev Fail := Nat × List String

/-- Furthest-failure merge, in the style of PEG error reporting: keep the
failure with the larger offset; at equal offsets, union the expected sets. -/
def fmerge (a b : Fail) : Fail :=
  if a.1 < b.1 then b else if b.1 < a.1 then a else (a.1, a.2 ++ b.2)

/-- Merge an optional carried failure with a fresh one. -/
def omerge : Option Fail → Fail → Fail
  | none, b => b
  | some a, b => fmerge a b

/-- Merge two optional failures. -/
def moFail : Option Fail → Option Fail → Option Fail
  | a, none => a
  | a, some b => some (omerge a b)

/-- A source position: 1-based line and column plus the offset, as carried
by pest error locations. -/
structure Pos where
  line : Nat
  col : Nat
  offset : Nat
deriving DecidableEq, Repr

/-- Structured parse error, from the spec error taxonomy (section 7):
a grammar mismatch with position and expected set, or a numeric overflow
with position and context label. -/
inductive ParseError where
  | grammarMismatch (pos : Pos) (expected : List String)
  | numericOverflow (pos : Pos) (context : String)
deriving DecidableEq, Repr

/-- The position carried by a parse error. -/
def ParseError.position : ParseError → Pos
  | .grammarMismatch p _ => p
  | .numericOverflow p _ => p

/-- The section kinds of the document model (spec section 3). -/
inductive SectionKind where
  | verse (index : Nat)
  | chorus
  | bridge
  | custom (label : String)
deriving DecidableEq, Repr

/-- One lyrical block: kind plus ordered body lines (spec section 3). -/
structure Section where
  kind : SectionKind
  lines : List String
deriving DecidableEq, Repr

/-- The root document value (spec section 3). -/
structure LyricsDocument where
  title : Option String
  artist : Option String
  sections : List Section
deriving DecidableEq, Repr

/-- Concrete-parse-tree header kind: a verse keeps its raw digit text and
the offset of the digits, since numeric conversion happens only in the
document builder. -/
inductive RawKind where
  | verse (digits : String) (off : Nat)
  | chorus
  | bridge
  | custom (label : String)
deriving DecidableEq, Repr

/-- Concrete-parse-tree section. -/
structure RawSection where
  kind : RawKind
  lines : List String
deriving DecidableEq, Repr

/-- Concrete-parse-tree document, mirroring the grammar rule
song = metadata* section* EOI. -/
structure RawDoc where
  title : Option String
  artist : Option String
  sections : List RawSection
deriving DecidableEq, Repr

/-- Running state of the grammar walk: whether metadata lines are still
accepted, the metadata gathered so far, the completed sections (most
recent first) and the currently open section (its lines most recent
first). -/
structure PState where
  metaPhase : Bool
  title : Option String
  artist : Option String
  done : List RawSection
  cur : Option (RawKind × List String)
deriving Repr

/-- Strip a literal from the front of the input. -/
def stripLit : List Char → List Char → Option (List Char)
  | [], cs => some cs
  | _ :: _, [] => none
  | l :: ls, c :: cs => if c = l then stripLit ls cs else none

/-- Scan a double-quoted string body: return the characters before the
closing quote and the rest after it, or none when unterminated. -/
def scanQuoted : List Char → Option (List Char × List Char)
  | [] => none
  | c :: cs =>
    if c = '"' then some ([], cs)
    else (scanQuoted cs).map (fun p => (c :: p.1, p.2))

/-- Take the maximal leading run of ASCII digits. -/
def takeDigits : List Char → List Char × List Char
  | [] => ([], [])
  | c :: cs =>
    if c.isDigit then
      let p := takeDigits cs
      (c :: p.1, p.2)
    else ([], c :: cs)

/-- Take the maximal leading run of non-bracket characters (label body). -/
def takeLabel : List Char → List Char × List Char
  | [] => ([], [])
  | c :: cs =>
    if c = ']' then ([], c :: cs)
    else
      let p := takeLabel cs
      (c :: p.1, p.2)

/-- Modelled from the spec: grammar branch VERSE bracket integer bracket
of the header rule in section 4.1 (the grammar file lyrics.pest is not
under src/). On success returns the raw kind and the unconsumed rest of
the line; on failure the furthest failure inside this branch. -/
def verseBranch (content : List Char) (ls : Nat) : Fail ⊕ (RawKind × List Char) :=
  match stripLit ("VERSE".data) content with
  | none => Sum.inl (ls, ["\"VERSE\""])
  | some r1 =>
    match stripLit ("[".data) r1 with
    | none => Sum.inl (ls + 5, ["\"[\""])
    | some r2 =>
      let p := takeDigits r2
      if p.1 = [] then Sum.inl (ls + 6, ["integer"])
      else
        match stripLit ("]".data) p.2 with
        | none => Sum.inl (ls + 6 + p.1.length, ["\"]\""])
        | some r3 => Sum.inr (RawKind.verse (String.mk p.1) (ls + 6), r3)

/-- Modelled from the spec: a bare keyword header branch (CHORUS or
BRIDGE) of the header rule in section 4.1. -/
def litBranch (lit : List Char) (k : RawKind) (desc : String)
    (content : List Char) (ls : Nat) : Fail ⊕ (RawKind × List Char) :=
  match stripLit lit content with
  | none => Sum.inl (ls, [desc])
  | some r => Sum.inr (k, r)

/-- Modelled from the spec: the bracketed custom-label header branch of
section 4.1; the label is one or more characters other than the closing
bracket (and cannot span lines, the grammar being line oriented). -/
def customBranch (content : List Char) (ls : Nat) : Fail ⊕ (RawKind × List Char) :=
  match stripLit ("[".data) content with
  | none => Sum.inl (ls, ["\"[\""])
  | some r1 =>
    let p := takeLabel r1
    if p.1 = [] then Sum.inl (ls + 1, ["label"])
    else
      match stripLit ("]".data) p.2 with
      | none => Sum.inl (ls + 1 + p.1.length, ["\"]\""])
      | some r2 => Sum.inr (RawKind.custom (String.mk p.1), r2)

/-- Modelled from the spec: the header rule of section 4.1 as a PEG
ordered choice, recording the failures of every attempted branch for
furthest-failure reporting. Returns the accumulated failures and, when
some branch matched, the kind plus the unconsumed rest of the line. -/
def headerPegR (content : List Char) (ls : Nat) :
    Option Fail × Option (RawKind × List Char) :=
  match verseBranch content ls with
  | Sum.inr r => (none, some r)
  | Sum.inl f1 =>
    match litBranch ("CHORUS".data) RawKind.chorus "\"CHORUS\"" content ls with
    | Sum.inr r => (some f1, some r)
    | Sum.inl f2 =>
      match litBranch ("BRIDGE".data) RawKind.bridge "\"BRIDGE\"" content ls with
      | Sum.inr r => (some (fmerge f1 f2), some r)
      | Sum.inl f3 =>
        match customBranch content ls with
        | Sum.inr r => (some (fmerge (fmerge f1 f2) f3), some r)
        | Sum.inl f4 => (some (fmerge (fmerge (fmerge f1 f2) f3) f4), none)

/-- Modelled from the spec: the value rule of a metadata statement in
section 4.1, an ordered choice of quoted string and bare words running to
end of line. The argument vs is the offset where the value starts. -/
def metaValue (r : List Char) (vs : Nat) (isTitle : Bool) : Fail ⊕ (Bool × String) :=
  match r with
  | [] => Sum.inl (vs, ["value"])
  | '"' :: r2 =>
    match scanQuoted r2 with
    | some (inner, after) =>
      if after = [] then Sum.inr (isTitle, String.mk inner)
      else Sum.inl (vs + 2 + inner.length, ["NEWLINE"])
    | none => Sum.inr (isTitle, String.mk r)
  | _ :: _ => Sum.inr (isTitle, String.mk r)

/-- Modelled from the spec: the metadata rule of section 4.1 applied to
one newline-terminated line content (the terminating newline has already
been split off). -/
def tryMeta (content : List Char) (ls : Nat) : Fail ⊕ (Bool × String) :=
  match stripLit ("title:".data) content with
  | some r => metaValue r (ls + 6) true
  | none =>
    match stripLit ("artist:".data) content with
    | some r => metaValue r (ls + 7) false
    | none => Sum.inl (ls, ["\"title\"", "\"artist\""])

/-- Metadata attempted on the trailing fragment that lacks a terminating
newline: it always fails, at the point where the newline was required.
This is the structural rule validated by the parse-failure test. -/
def tryMetaTrail (content : List Char) (ls : Nat) : Fail :=
  match tryMeta content ls with
  | Sum.inr _ => (ls + content.length, ["NEWLINE"])
  | Sum.inl f => f

/-- Close the open section, restoring body-line order. -/
def closeCur : Option (RawKind × List String) → List RawSection
  | none => []
  | some (k, ls) => [⟨k, ls.reverse⟩]

/-- Start a new section, closing the previous one. -/
def pushSection (st : PState) (k : RawKind) : PState :=
  { st with metaPhase := false, done := closeCur st.cur ++ st.done, cur := some (k, []) }

/-- Final document of a fully consumed input. -/
def finalize (st : PState) : RawDoc :=
  ⟨st.title, st.artist, (closeCur st.cur ++ st.done).reverse⟩

/-- Modelled from the spec: processing of one complete line in the
section region: a line is either a header followed by its (already
consumed) newline, or, when a section is open and the header lookahead
fails, a body line. A header match with trailing junk before the newline
is a grammar failure. -/
def bodyStep (content : List Char) (ls : Nat) (fur : Option Fail) (st : PState) :
    Except Fail (Option Fail × PState) :=
  match headerPegR content ls with
  | (hf, some kr) =>
    let fur2 := moFail fur hf
    if kr.2 = [] then .ok (fur2, pushSection st kr.1)
    else .error (omerge fur2 (ls + (content.length - kr.2.length), ["NEWLINE"]))
  | (hf, none) =>
    let fur2 := moFail fur hf
    match st.cur with
    | some c => .ok (fur2, { st with cur := some (c.1, String.mk content :: c.2) })
    | none => .error (omerge fur2 (ls, ["EOI"]))

/-- Modelled from the spec: processing of one complete line. While in the
metadata region a metadata statement is consumed greedily; once one
fails, the walk switches (permanently, by PEG star semantics) to the
section region and reinterprets the same line there. -/
def stepLine (content : List Char) (ls : Nat) (fur : Option Fail) (st : PState) :
    Except Fail (Option Fail × PState) :=
  if st.metaPhase then
    match tryMeta content ls with
    | Sum.inr (isTitle, v) =>
      .ok (fur, if isTitle then { st with title := some v } else { st with artist := some v })
    | Sum.inl f => bodyStep content ls (some (omerge fur f)) { st with metaPhase := false }
  else bodyStep content ls fur st

/-- Modelled from the spec: the end of the walk. An empty remainder is
end of input and succeeds; a trailing fragment without a newline can
complete no rule (metadata, header and body line all require the
newline), so the walk fails with the furthest failure gathered. -/
def finishRun (tr : List Char) (off : Nat) (fur : Option Fail) (st : PState) :
    Except Fail RawDoc :=
  match tr with
  | [] => .ok (finalize st)
  | _ :: _ =>
    let f1 : Option Fail := if st.metaPhase then some (tryMetaTrail tr off) else none
    let hp := headerPegR tr off
    let f2 := moFail (moFail fur f1) hp.1
    let base : Fail :=
      match hp.2 with
      | some kr => fmerge (off + (tr.length - kr.2.length), ["NEWLINE"]) (off, ["EOI"])
      | none =>
        match st.cur with
        | some _ => fmerge (off + tr.length, ["NEWLINE"]) (off, ["EOI"])
        | none => (off, ["EOI"])
    .error (omerge f2 base)

/-- Modelled from the spec: the walk over the complete lines and the
trailing fragment, threading the offset of the current line start and
the furthest failure. -/
def runLines : List (List Char) → List Char → Nat → Option Fail → PState →
    Except Fail RawDoc
  | [], tr, off, fur, st => finishRun tr off fur st
  | l :: ls, tr, off, fur, st =>
    match stepLine l off fur st with
    | .error e => .error e
    | .ok r => runLines ls tr (off + l.length + 1) r.1 r.2

/-- Split the input into its newline-terminated line contents and the
trailing fragment after the last newline. -/
def splitLines : List Char → List (List Char) × List Char
  | [] => ([], [])
  | c :: cs =>
    if c = '\n' then ([] :: (splitLines cs).1, (splitLines cs).2)
    else
      match splitLines cs with
      | ([], tr) => ([], c :: tr)
      | (l :: ls, tr) => ((c :: l) :: ls, tr)

/-- Initial walk state. -/
def initState : PState := ⟨true, none, none, [], none⟩

/-- Modelled from the spec: the grammar engine run over the whole input,
producing the concrete parse tree of the rule
song = metadata* section* EOI, or the furthest failure. The grammar file
lyrics.pest referenced by src/src/parser.rs is not under src/; its rules
are taken from spec section 4.1 and the walk order from the state
machine of section 4.2. -/
def runGrammar (cs : List Char) : Except Fail RawDoc :=
  let p := splitLines cs
  runLines p.1 p.2 0 none initState

/-- Number of characters in the first line of the input up to the given
offset. -/
def colOf (cs : List Char) (off : Nat) : Nat :=
  ((cs.take off).reverse.takeWhile (fun c => c ≠ '\n')).length + 1

/-- 1-based line number of an offset. -/
def lineOf (cs : List Char) (off : Nat) : Nat := (cs.take off).count '\n' + 1

/-- Position (line, column, offset) of an offset in the input. -/
def posOf (cs : List Char) (off : Nat) : Pos := ⟨lineOf cs off, colOf cs off, off⟩

/-- The pest-style run of the grammar: a concrete parse tree on success,
a located error with the expected set on failure. Models the call
LyricsParser::parse(Rule::song, input) in src/src/parser.rs. -/
def pestParse (s : String) : Except ParseError RawDoc :=
  match runGrammar s.data with
  | .error f => .error (.grammarMismatch (posOf s.data f.1) f.2)
  | .ok r => .ok r

/-- The entry point of src/src/parser.rs: run the grammar and discard the
parse tree, keeping only success or the structured error. -/
def parse_lyrics (s : String) : Except ParseError Unit :=
  (pestParse s).map (fun _ => ())

/-- Numeric value of a digit run. -/
def natOfDigits (ds : List Char) : Nat :=
  ds.foldl (fun a c => a * 10 + (c.toNat - 48)) 0

/-- Modelled from the spec: the document builder of section 4.2 on one
header: the verse index must fit an unsigned 32-bit integer, anything
larger being a numeric-overflow parse error with context label, distinct
from a grammar mismatch. No such builder exists under src/. -/
def buildKind (cs : List Char) : RawKind → Except ParseError SectionKind
  | .verse digits off =>
    let n := natOfDigits digits.data
    if n < 4294967296 then .ok (.verse n)
    else .error (.numericOverflow (posOf cs off) "verse index overflow")
  | .chorus => .ok .chorus
  | .bridge => .ok .bridge
  | .custom l => .ok (.custom l)

/-- Modelled from the spec: the document builder of section 4.2 walking
the sections of the concrete tree in order. -/
def buildSections (cs : List Char) : List RawSection → Except ParseError (List Section)
  | [] => .ok []
  | s :: rest =>
    match buildKind cs s.kind with
    | .error e => .error e
    | .ok k =>
      match buildSections cs rest with
      | .error e => .error e
      | .ok ks => .ok (⟨k, s.lines⟩ :: ks)

/-- Modelled from the spec: the full parser contract of section 4.2,
parse from input text to a typed document or a structured error. Only
the tree-discarding parse_lyrics exists under src/. -/
def parse (s : String) : Except ParseError LyricsDocument :=
  match pestParse s with
  | .error e => .error e
  | .ok r =>
    match buildSections s.data r.sections with
    | .error e => .error e
    | .ok secs => .ok ⟨r.title, r.artist, secs⟩

/-! The interactive per-line classifier of src/src/main.rs
(process_interactive_input, lines 218 to 234): three anchored regex
checks followed by a generic bracket check and a plain-line fallback. -/

/-- Classification outcomes of process_interactive_input. -/
inductive LineClass where
  | verseMarker
  | chorusMarker
  | bridgeMarker
  | customMarker
  | plainLine
deriving DecidableEq, Repr

/-- After at least one digit was seen: accept a closing bracket or more
digits. Together with digitsThenCloseB this decides whether some split
digits-then-bracket exists, which is regex matching of d-plus then a
closing bracket. -/
def closeAfterDigits : List Char → Bool
  | [] => false
  | c :: cs => c = ']' || (c.isDigit && closeAfterDigits cs)

/-- One or more digits followed by a closing bracket (then anything). -/
def digitsThenCloseB : List Char → Bool
  | [] => false
  | c :: cs => c.isDigit && closeAfterDigits cs

/-- The verse regex of main.rs line 220: anchored match of the literal
open bracket, Verse, space, one or more digits, closing bracket. -/
def verseRe (s : String) : Bool :=
  match stripLit ("[Verse ".data) s.data with
  | some r => digitsThenCloseB r
  | none => false

/-- The chorus regex of main.rs line 221: anchored literal match. -/
def chorusRe (s : String) : Bool := ("[Chorus]".data).isPrefixOf s.data

/-- The bridge regex of main.rs line 222: anchored literal match. -/
def bridgeRe (s : String) : Bool := ("[Bridge]".data).isPrefixOf s.data

/-- input.starts_with the open-bracket character, main.rs line 230. -/
def startsWithLB (s : String) : Bool :=
  match s.data with
  | [] => false
  | c :: _ => c = '['

/-- input.ends_with the close-bracket character, main.rs line 230. -/
def endsWithRB (s : String) : Bool :=
  match s.data.getLast? with
  | some c => c = ']'
  | none => false

/-- The classifier cascade of process_interactive_input, in source
order: verse, chorus, bridge, generic bracketed marker, plain line. -/
def classifyLine (s : String) : LineClass :=
  if verseRe s then .verseMarker
  else if chorusRe s then .chorusMarker
  else if bridgeRe s then .bridgeMarker
  else if startsWithLB s && endsWithRB s then .customMarker
  else .plainLine

/-! Serialization: modelled from the spec (section 6): the repository
only smoke-tests the serde library on a toy struct (main.rs
test_serde_functionality); the interchange form of LyricsDocument with
field names title, artist, sections and each section as kind, optional
index or label, lines, is modelled from the spec text. -/

/-- A structured interchange value (JSON shaped). -/
inductive Json where
  | null
  | str (s : String)
  | num (n : Nat)
  | arr (xs : List Json)
  | obj (fields : List (String × Json))

/-- Modelled from the spec: optional metadata field to interchange. -/
def jsonOfOptStr : Option String → Json
  | none => .null
  | some s => .str s

/-- Modelled from the spec: optional metadata field from interchange. -/
def optStrOfJson : Json → Option (Option String)
  | .null => some none
  | .str s => some (some s)
  | _ => none

/-- Modelled from the spec: the kind (and optional index or label)
fields of a serialized section. -/
def jsonOfKind : SectionKind → List (String × Json)
  | .verse n => [("kind", .str "verse"), ("index", .num n)]
  | .chorus => [("kind", .str "chorus")]
  | .bridge => [("kind", .str "bridge")]
  | .custom l => [("kind", .str "custom"), ("label", .str l)]

/-- Modelled from the spec: serialize one section. -/
def serializeSection (sec : Section) : Json :=
  .obj (jsonOfKind sec.kind ++ [("lines", .arr (sec.lines.map Json.str))])

/-- Modelled from the spec: serialize a document. -/
def serializeDoc (d : LyricsDocument) : Json :=
  .obj [("title", jsonOfOptStr d.title), ("artist", jsonOfOptStr d.artist),
        ("sections", .arr (d.sections.map serializeSection))]

/-- Decode a list of interchange strings. -/
def strListOfJson : List Json → Option (List String)
  | [] => some []
  | .str s :: rest => (strListOfJson rest).map (fun l => s :: l)
  | _ => none

/-- Modelled from the spec: deserialize one section. -/
def deserializeSection : Json → Option Section
  | .obj [("kind", .str "verse"), ("index", .num n), ("lines", .arr xs)] =>
    (strListOfJson xs).map (fun l => ⟨.verse n, l⟩)
  | .obj [("kind", .str "chorus"), ("lines", .arr xs)] =>
    (strListOfJson xs).map (fun l => ⟨.chorus, l⟩)
  | .obj [("kind", .str "bridge"), ("lines", .arr xs)] =>
    (strListOfJson xs).map (fun l => ⟨.bridge, l⟩)
  | .obj [("kind", .str "custom"), ("label", .str lab), ("lines", .arr xs)] =>
    (strListOfJson xs).map (fun l => ⟨.custom lab, l⟩)
  | _ => none

/-- Decode a list of serialized sections. -/
def sectionListOfJson : List Json → Option (List Section)
  | [] => some []
  | j :: rest =>
    match deserializeSection j with
    | none => none
    | some s => (sectionListOfJson rest).map (fun l => s :: l)

/-- Modelled from the spec: deserialize a document. -/
def deserializeDoc : Json → Option LyricsDocument
  | .obj [("title", jt), ("artist", ja), ("sections", .arr xs)] =>
    match optStrOfJson jt, optStrOfJson ja, sectionListOfJson xs with
    | some t, some a, some secs => some ⟨t, a, secs⟩
    | _, _, _ => none
  | _ => none

/-- Well-formedness of a carried optional failure: if present, its
expected set is nonempty. -/
def FOk : Option Fail → Prop
  | none => True
  | some f => f.2 ≠ []

/-- Total source length of a list of newline-terminated line contents,
counting the newline of each line. -/
def lenSum : List (List Char) → Nat
  | [] => 0
  | l :: ls => l.length + 1 + lenSum ls

/-! Helper lemmas. -/

theorem stripLit_append (l r : List Char) : stripLit l (l ++ r) = some r := by
  induction l with
  | nil => rfl
  | cons c cs ih => simp [stripLit, ih]

theorem strListOfJson_map (l : List String) :
    strListOfJson (l.map Json.str) = some l := by
  induction l with
  | nil => rfl
  | cons s rest ih => simp [strListOfJson, ih]

theorem deserializeSection_serializeSection (s : Section) :
    deserializeSection (serializeSection s) = some s := by
  obtain ⟨k, lines⟩ := s
  cases k <;>
    simp [serializeSection, jsonOfKind, deserializeSection, strListOfJson_map]

theorem sectionListOfJson_map (secs : List Section) :
    sectionListOfJson (secs.map serializeSection) = some secs := by
  induction secs with
  | nil => rfl
  | cons s rest ih =>
    simp [sectionListOfJson, deserializeSection_serializeSection, ih]

theorem roundtripDoc (d : LyricsDocument) :
    deserializeDoc (serializeDoc d) = some d := by
  obtain ⟨t, a, secs⟩ := d
  cases t <;> cases a <;>
    simp [serializeDoc, deserializeDoc, jsonOfOptStr, optStrOfJson, sectionListOfJson_map]

theorem closeAfterDigits_digits_append (ds : List Char)
    (h : ∀ c ∈ ds, c.isDigit = true) : closeAfterDigits (ds ++ [']']) = true := by
  induction ds with
  | nil => rfl
  | cons c rest ih =>
    have hc := h c (List.mem_cons_self c rest)
    have hr := ih (fun x hx => h x (List.mem_cons_of_mem c hx))
    by_cases hcc : c = ']'
    · simp [closeAfterDigits, hcc]
    · simp [closeAfterDigits, hcc, hc, hr]

theorem digitsThenCloseB_digits_append (ds : List Char) (hne : ds ≠ [])
    (h : ∀ c ∈ ds, c.isDigit = true) : digitsThenCloseB (ds ++ [']']) = true := by
  cases ds with
  | nil => exact absurd rfl hne
  | cons c rest =>
    have hc := h c (List.mem_cons_self c rest)
    have hr := closeAfterDigits_digits_append rest
      (fun x hx => h x (List.mem_cons_of_mem c hx))
    simp [digitsThenCloseB, hc, hr]

/-! Lemmas about the furthest-failure bookkeeping. -/

theorem fmerge_fst (a b : Fail) : (fmerge a b).1 = max a.1 b.1 := by
  unfold fmerge
  split
  · omega
  · split
    · omega
    · show a.1 = max a.1 b.1
      omega

theorem fmerge_ne (a b : Fail) (ha : a.2 ≠ []) (hb : b.2 ≠ []) :
    (fmerge a b).2 ≠ [] := by
  unfold fmerge
  split
  · exact hb
  · split
    · exact ha
    · show a.2 ++ b.2 ≠ []
      intro hc
      exact ha (List.append_eq_nil.mp hc).1

theorem omerge_ne {a : Option Fail} {b : Fail} (ha : FOk a) (hb : b.2 ≠ []) :
    (omerge a b).2 ≠ [] := by
  cases a with
  | none => exact hb
  | some f => exact fmerge_ne f b ha hb

theorem omerge_fst_ge (a : Option Fail) (b : Fail) : b.1 ≤ (omerge a b).1 := by
  cases a with
  | none => exact Nat.le_refl _
  | some f =>
    show b.1 ≤ (fmerge f b).1
    rw [fmerge_fst]
    omega

theorem moFail_FOk {a b : Option Fail} (ha : FOk a) (hb : FOk b) :
    FOk (moFail a b) := by
  cases b with
  | none => exact ha
  | some f => exact omerge_ne ha hb

theorem verseBranch_inl {content : List Char} {ls : Nat} {f : Fail}
    (h : verseBranch content ls = Sum.inl f) : f.2 ≠ [] := by
  unfold verseBranch at h
  repeat' split at h
  all_goals try dsimp only at h
  all_goals repeat' split at h
  all_goals (try cases h)
  all_goals simp

theorem litBranch_inl {lit : List Char} {k : RawKind} {desc : String}
    {content : List Char} {ls : Nat} {f : Fail}
    (h : litBranch lit k desc content ls = Sum.inl f) : f.2 ≠ [] := by
  unfold litBranch at h
  repeat' split at h
  all_goals (try cases h)
  all_goals simp

theorem customBranch_inl {content : List Char} {ls : Nat} {f : Fail}
    (h : customBranch content ls = Sum.inl f) : f.2 ≠ [] := by
  unfold customBranch at h
  repeat' split at h
  all_goals try dsimp only at h
  all_goals repeat' split at h
  all_goals (try cases h)
  all_goals simp

theorem headerPegR_FOk {content : List Char} {ls : Nat} {hf : Option Fail}
    {hr : Option (RawKind × List Char)}
    (h : headerPegR content ls = (hf, hr)) : FOk hf := by
  unfold headerPegR at h
  split at h
  · cases h
    trivial
  next f1 hv =>
    split at h
    · cases h
      exact verseBranch_inl hv
    next f2 hc =>
      split at h
      · cases h
        exact fmerge_ne _ _ (verseBranch_inl hv) (litBranch_inl hc)
      next f3 hb =>
        split at h
        · cases h
          exact fmerge_ne _ _
            (fmerge_ne _ _ (verseBranch_inl hv) (litBranch_inl hc))
            (litBranch_inl hb)
        next f4 hcu =>
          cases h
          exact fmerge_ne _ _
            (fmerge_ne _ _
              (fmerge_ne _ _ (verseBranch_inl hv) (litBranch_inl hc))
              (litBranch_inl hb))
            (customBranch_inl hcu)

theorem metaValue_inl {r : List Char} {vs : Nat} {b : Bool} {f : Fail}
    (h : metaValue r vs b = Sum.inl f) : f.2 ≠ [] := by
  unfold metaValue at h
  repeat' split at h
  all_goals (try cases h)
  all_goals simp

theorem tryMeta_inl {content : List Char} {ls : Nat} {f : Fail}
    (h : tryMeta content ls = Sum.inl f) : f.2 ≠ [] := by
  unfold tryMeta at h
  split at h
  · exact metaValue_inl h
  · split at h
    · exact metaValue_inl h
    · cases h
      simp

theorem tryMetaTrail_ne (content : List Char) (ls : Nat) :
    (tryMetaTrail content ls).2 ≠ [] := by
  unfold tryMetaTrail
  split
  · simp
  next f hf => exact tryMeta_inl hf

/-! Lemmas about the stepwise grammar walk: errors carry a nonempty
expected set and a position at or beyond the current line start. -/

theorem bodyStep_ok_FOk {content : List Char} {ls : Nat} {fur : Option Fail}
    {st : PState} {r : Option Fail × PState} (hfu : FOk fur)
    (h : bodyStep content ls fur st = .ok r) : FOk r.1 := by
  unfold bodyStep at h
  split at h
  next hf kr hh =>
    split at h
    · cases h
      exact moFail_FOk hfu (headerPegR_FOk hh)
    · cases h
  next hf hh =>
    split at h
    · cases h
      exact moFail_FOk hfu (headerPegR_FOk hh)
    · cases h

theorem bodyStep_error_ne {content : List Char} {ls : Nat} {fur : Option Fail}
    {st : PState} {e : Fail} (hfu : FOk fur)
    (h : bodyStep content ls fur st = .error e) : e.2 ≠ [] := by
  unfold bodyStep at h
  split at h
  next hf kr hh =>
    split at h
    · cases h
    · cases h
      exact omerge_ne (moFail_FOk hfu (headerPegR_FOk hh)) (by simp)
  next hf hh =>
    split at h
    · cases h
    · cases h
      exact omerge_ne (moFail_FOk hfu (headerPegR_FOk hh)) (by simp)

theorem bodyStep_error_ge {content : List Char} {ls : Nat} {fur : Option Fail}
    {st : PState} {e : Fail}
    (h : bodyStep content ls fur st = .error e) : ls ≤ e.1 := by
  unfold bodyStep at h
  split at h
  next hf kr hh =>
    split at h
    · cases h
    · cases h
      have := omerge_fst_ge (moFail fur hf) (ls + (content.length - kr.2.length), ["NEWLINE"])
      omega
  next hf hh =>
    split at h
    · cases h
    · cases h
      have := omerge_fst_ge (moFail fur hf) (ls, ["EOI"])
      omega

theorem stepLine_ok_FOk {content : List Char} {ls : Nat} {fur : Option Fail}
    {st : PState} {r : Option Fail × PState} (hfu : FOk fur)
    (h : stepLine content ls fur st = .ok r) : FOk r.1 := by
  unfold stepLine at h
  split at h
  · split at h
    · cases h
      exact hfu
    next f hm =>
      exact bodyStep_ok_FOk
        (show FOk (some (omerge fur f)) from omerge_ne hfu (tryMeta_inl hm)) h
  · exact bodyStep_ok_FOk hfu h

theorem stepLine_error_ne {content : List Char} {ls : Nat} {fur : Option Fail}
    {st : PState} {e : Fail} (hfu : FOk fur)
    (h : stepLine content ls fur st = .error e) : e.2 ≠ [] := by
  unfold stepLine at h
  split at h
  · split at h
    · cases h
    next f hm =>
      exact bodyStep_error_ne
        (show FOk (some (omerge fur f)) from omerge_ne hfu (tryMeta_inl hm)) h
  · exact bodyStep_error_ne hfu h

theorem stepLine_error_ge {content : List Char} {ls : Nat} {fur : Option Fail}
    {st : PState} {e : Fail}
    (h : stepLine content ls fur st = .error e) : ls ≤ e.1 := by
  unfold stepLine at h
  split at h
  · split at h
    · cases h
    · exact bodyStep_error_ge h
  · exact bodyStep_error_ge h

theorem finishRun_error_ne {tr : List Char} {off : Nat} {fur : Option Fail}
    {st : PState} {e : Fail} (hfu : FOk fur)
    (h : finishRun tr off fur st = .error e) : e.2 ≠ [] := by
  cases tr with
  | nil =>
    unfold finishRun at h
    cases h
  | cons c cs =>
    unfold finishRun at h
    dsimp only at h
    cases h
    have hf1 : FOk (if st.metaPhase then some (tryMetaTrail (c :: cs) off) else none) := by
      split
      · exact tryMetaTrail_ne (c :: cs) off
      · trivial
    have hf2 : FOk (moFail (moFail fur
        (if st.metaPhase then some (tryMetaTrail (c :: cs) off) else none))
        (headerPegR (c :: cs) off).1) :=
      moFail_FOk (moFail_FOk hfu hf1) (headerPegR_FOk rfl)
    apply omerge_ne hf2
    split
    · exact fmerge_ne _ _ (by simp) (by simp)
    · split
      · exact fmerge_ne _ _ (by simp) (by simp)
      · simp

theorem finishRun_error_ge {tr : List Char} {off : Nat} {fur : Option Fail}
    {st : PState} {e : Fail}
    (h : finishRun tr off fur st = .error e) : off ≤ e.1 := by
  cases tr with
  | nil =>
    unfold finishRun at h
    cases h
  | cons c cs =>
    unfold finishRun at h
    dsimp only at h
    cases h
    refine Nat.le_trans ?_ (omerge_fst_ge _ _)
    split
    · rw [fmerge_fst]
      omega
    · split
      · rw [fmerge_fst]
        omega
      · exact Nat.le_refl _

theorem runLines_cons_eq (l : List Char) (ls : List (List Char)) (tr : List Char)
    (off : Nat) (fur : Option Fail) (st : PState) :
    runLines (l :: ls) tr off fur st =
      match stepLine l off fur st with
      | .error e => .error e
      | .ok r => runLines ls tr (off + l.length + 1) r.1 r.2 := rfl

theorem runLines_cons_ok {l : List Char} {ls : List (List Char)} {tr : List Char}
    {off : Nat} {fur : Option Fail} {st : PState} {r' : Option Fail × PState}
    (hs : stepLine l off fur st = .ok r') :
    runLines (l :: ls) tr off fur st =
      runLines ls tr (off + l.length + 1) r'.1 r'.2 := by
  rw [runLines_cons_eq, hs]

theorem runLines_cons_err {l : List Char} {ls : List (List Char)} {tr : List Char}
    {off : Nat} {fur : Option Fail} {st : PState} {e' : Fail}
    (hs : stepLine l off fur st = .error e') :
    runLines (l :: ls) tr off fur st = .error e' := by
  rw [runLines_cons_eq, hs]

theorem runLines_error_ne (lls : List (List Char)) :
    ∀ (tr : List Char) (off : Nat) (fur : Option Fail) (st : PState) (e : Fail),
      FOk fur → runLines lls tr off fur st = .error e → e.2 ≠ [] := by
  induction lls with
  | nil =>
    intro tr off fur st e hfu h
    exact finishRun_error_ne hfu h
  | cons l ls ih =>
    intro tr off fur st e hfu h
    unfold runLines at h
    split at h
    next e' hs =>
      cases h
      exact stepLine_error_ne hfu hs
    next r hs =>
      exact ih tr _ r.1 r.2 e (stepLine_ok_FOk hfu hs) h

theorem runLines_error_ge (lls : List (List Char)) :
    ∀ (tr : List Char) (off : Nat) (fur : Option Fail) (st : PState) (e : Fail),
      runLines lls tr off fur st = .error e → off ≤ e.1 := by
  induction lls with
  | nil =>
    intro tr off fur st e h
    exact finishRun_error_ge h
  | cons l ls ih =>
    intro tr off fur st e h
    unfold runLines at h
    split at h
    next e' hs =>
      cases h
      exact stepLine_error_ge hs
    next r hs =>
      have := ih tr _ r.1 r.2 e h
      omega

theorem runLines_ok_tr_nil (lls : List (List Char)) :
    ∀ (tr : List Char) (off : Nat) (fur : Option Fail) (st : PState) (r : RawDoc),
      runLines lls tr off fur st = .ok r → tr = [] := by
  induction lls with
  | nil =>
    intro tr off fur st r h
    unfold runLines finishRun at h
    split at h
    · rfl
    · cases h
  | cons l ls ih =>
    intro tr off fur st r h
    unfold runLines at h
    split at h
    · cases h
    next r' hs => exact ih tr _ r'.1 r'.2 r h

theorem runLines_prefix_ge (lls1 : List (List Char)) :
    ∀ (lls2 : List (List Char)) (tr : List Char) (off : Nat) (fur : Option Fail)
      (st : PState) (r : RawDoc) (e : Fail),
      runLines lls1 [] off fur st = .ok r →
      runLines (lls1 ++ lls2) tr off fur st = .error e →
      off + lenSum lls1 ≤ e.1 := by
  induction lls1 with
  | nil =>
    intro lls2 tr off fur st r e _hok herr
    rw [List.nil_append] at herr
    have := runLines_error_ge lls2 tr off fur st e herr
    simp only [lenSum]
    omega
  | cons l ls ih =>
    intro lls2 tr off fur st r e hok herr
    rcases hs : stepLine l off fur st with e' | r'
    · rw [runLines_cons_err hs] at hok
      cases hok
    · rw [runLines_cons_ok hs] at hok
      rw [List.cons_append, runLines_cons_ok hs] at herr
      have := ih lls2 tr (off + l.length + 1) r'.1 r'.2 r e hok herr
      simp only [lenSum]
      omega

/-! Lemmas about line splitting. -/

theorem splitLines_cons_nl (cs : List Char) :
    splitLines ('\n' :: cs) = ([] :: (splitLines cs).1, (splitLines cs).2) :=
  rfl

theorem splitLines_cons_other {c : Char} (hc : c ≠ '\n') (cs : List Char)
    {l : List Char} {ls : List (List Char)} {tr : List Char}
    (h : splitLines cs = (l :: ls, tr)) :
    splitLines (c :: cs) = ((c :: l) :: ls, tr) := by
  unfold splitLines
  rw [h]
  simp [hc]

theorem splitLines_cons_other_nil {c : Char} (hc : c ≠ '\n') (cs : List Char)
    {tr : List Char} (h : splitLines cs = ([], tr)) :
    splitLines (c :: cs) = ([], c :: tr) := by
  unfold splitLines
  rw [h]
  simp [hc]

theorem splitLines_snd_nil_append (a : List Char) :
    ∀ b : List Char, (splitLines a).2 = [] →
      splitLines (a ++ b) =
        ((splitLines a).1 ++ (splitLines b).1, (splitLines b).2) := by
  induction a with
  | nil =>
    intro b _h
    simp [splitLines]
  | cons c cs ih =>
    intro b h
    by_cases hc : c = '\n'
    · subst hc
      rw [splitLines_cons_nl] at h
      simp only at h
      rw [List.cons_append, splitLines_cons_nl, splitLines_cons_nl, ih b h]
      simp
    · rcases hcs : splitLines cs with ⟨ls, tr⟩
      cases ls with
      | nil =>
        rw [splitLines_cons_other_nil hc cs hcs] at h
        cases h
      | cons l ls' =>
        rw [splitLines_cons_other hc cs hcs] at h
        simp only at h
        subst h
        have hab := ih b (by rw [hcs])
        rw [hcs] at hab
        rw [List.cons_append] at hab
        rw [List.cons_append,
          splitLines_cons_other hc (cs ++ b) hab,
          splitLines_cons_other hc cs hcs]
        simp

theorem splitLines_length (cs : List Char) :
    cs.length = lenSum (splitLines cs).1 + (splitLines cs).2.length := by
  induction cs with
  | nil => rfl
  | cons c cs ih =>
    by_cases hc : c = '\n'
    · subst hc
      rw [splitLines_cons_nl]
      simp [lenSum]
      omega
    · rcases hcs : splitLines cs with ⟨ls, tr⟩
      rw [hcs] at ih
      cases ls with
      | nil =>
        rw [splitLines_cons_other_nil hc cs hcs]
        simp [lenSum] at ih ⊢
        omega
      | cons l ls' =>
        rw [splitLines_cons_other hc cs hcs]
        simp [lenSum] at ih ⊢
        omega

/-! Claim theorems. -/

/-- C1: the fixture of the parse_basic_song test parses: the entry point
of src/src/parser.rs succeeds, and the document contract of the spec
yields title My Song, artist Author and the ordered sections Verse 1
with body Hello then Chorus with body World. -/
theorem c1_fixture_parse :
    parse_lyrics "title:\"My Song\"\nartist:Author\nVERSE[1]\nHello\nCHORUS\nWorld\n" =
      .ok () ∧
    parse "title:\"My Song\"\nartist:Author\nVERSE[1]\nHello\nCHORUS\nWorld\n" =
      .ok ⟨some "My Song", some "Author",
        [⟨.verse 1, ["Hello"]⟩, ⟨.chorus, ["World"]⟩]⟩ :=
  ⟨rfl, rfl⟩

/-- C2: two metadata statements on one line without a separating newline
are rejected, as asserted by the parse_failure test: the grammar insists
on a newline after the bare-word value, and the furthest failure is
reported at the end of the line where the newline was required. -/
theorem c2_missing_newline_fails :
    parse_lyrics "title:Test artist:Author" =
      .error (.grammarMismatch ⟨1, 25, 24⟩ ["NEWLINE"]) :=
  rfl

/-- C4: the empty input parses to the degenerate document with no
metadata and no sections, and the entry point of src/src/parser.rs
succeeds on it. -/
theorem c4_empty_input :
    parse "" = .ok ⟨none, none, []⟩ ∧ parse_lyrics "" = .ok () :=
  ⟨rfl, rfl⟩

/-- C5: for a verse index exceeding the unsigned 32-bit range, the entry
point of src/src/parser.rs succeeds with the unit value, because the
grammar matches any digit run and the parse result is discarded before
any numeric conversion; only the document-builder contract modelled from
the spec reports the intended numeric-overflow error (with its position
at the digits and the context label of the spec). The entry point never
produces the overflow error the claim requires. -/
theorem c5_overflow_divergence :
    parse_lyrics "VERSE[99999999999999999999]\n" = .ok () ∧
    parse "VERSE[99999999999999999999]\n" =
      .error (.numericOverflow ⟨1, 7, 6⟩ "verse index overflow") :=
  ⟨rfl, rfl⟩

/-- C6 counterexample: the interactive classifier of main.rs, applied to
the canonical textual forms of the DSL grammar headers, classifies every
one of them as a plain lyric line, not as the corresponding marker: its
regex patterns recognize the bracketed forms instead. -/
theorem c6_grammar_forms_not_matched :
    classifyLine "VERSE[1]" = .plainLine ∧
    classifyLine "CHORUS" = .plainLine ∧
    classifyLine "BRIDGE" = .plainLine :=
  ⟨rfl, rfl, rfl⟩

/-- C6 amended: the classifier patterns applied to their own canonical
textual forms always match: open bracket Verse space digits close
bracket is classified as a verse marker for every nonempty digit run,
and the bracketed Chorus and Bridge forms as chorus and bridge
markers. -/
theorem c6_classifier_own_forms (ds : List Char) (hne : ds ≠ [])
    (h : ∀ c ∈ ds, c.isDigit = true) :
    classifyLine (String.mk ("[Verse ".data ++ (ds ++ [']']))) = .verseMarker ∧
    classifyLine "[Chorus]" = .chorusMarker ∧
    classifyLine "[Bridge]" = .bridgeMarker := by
  refine ⟨?_, rfl, rfl⟩
  have hv : verseRe (String.mk ("[Verse ".data ++ (ds ++ [']']))) = true := by
    unfold verseRe
    rw [show (String.mk ("[Verse ".data ++ (ds ++ [']']))).data
          = "[Verse ".data ++ (ds ++ [']']) from rfl]
    rw [stripLit_append]
    exact digitsThenCloseB_digits_append ds hne h
  unfold classifyLine
  rw [hv]
  simp

/-- C6 amended witness at the digit run 1. -/
theorem c6_classifier_own_forms_witness :
    classifyLine (String.mk ("[Verse ".data ++ (['1'] ++ [']']))) = .verseMarker ∧
    classifyLine "[Chorus]" = .chorusMarker ∧
    classifyLine "[Bridge]" = .bridgeMarker :=
  c6_classifier_own_forms ['1'] (by decide) (by decide)

/-- C7: parsing is a pure function of the input text: the entry point of
src/src/parser.rs and the spec-level parse, invoked twice on equal
inputs, return equal results; the embedding takes no other state. -/
theorem c7_parse_pure (s t : String) (h : s = t) :
    parse_lyrics s = parse_lyrics t ∧ parse s = parse t := by
  subst h; exact ⟨rfl, rfl⟩

/-- C7 witness at the empty input. -/
theorem c7_parse_pure_witness :
    parse_lyrics "" = parse_lyrics "" ∧ parse "" = parse "" :=
  c7_parse_pure "" "" rfl

/-- C8: for every document produced by a successful parse, serializing
to the interchange form (fields title, artist, sections, each section
with kind, optional index or label, and lines) and deserializing yields
the same document. -/
theorem c8_serialization_round_trip (s : String) (d : LyricsDocument)
    (_h : parse s = .ok d) : deserializeDoc (serializeDoc d) = some d :=
  roundtripDoc d

/-- C8 witness at the parse_basic_song fixture. -/
theorem c8_serialization_round_trip_witness :
    deserializeDoc (serializeDoc ⟨some "My Song", some "Author",
      [⟨.verse 1, ["Hello"]⟩, ⟨.chorus, ["World"]⟩]⟩) =
    some ⟨some "My Song", some "Author",
      [⟨.verse 1, ["Hello"]⟩, ⟨.chorus, ["World"]⟩]⟩ :=
  c8_serialization_round_trip
    "title:\"My Song\"\nartist:Author\nVERSE[1]\nHello\nCHORUS\nWorld\n" _ rfl

/-- C3 counterexample: on the fixture of the parse_basic_song test the
entry point of src/src/parser.rs succeeds with the unit value: line 9 of
parser.rs discards the parse result, so a success carries no
LyricsDocument value at all, refuting that success never yields less
than a full document value. -/
theorem c3_success_discards_document :
    parse_lyrics "title:\"My Song\"\nartist:Author\nVERSE[1]\nHello\nCHORUS\nWorld\n" =
      .ok () :=
  rfl

/-- C3 amended: for every input, the entry point of src/src/parser.rs
returns either the unit value on success (the document is dropped by the
map to unit) or a structured grammar-mismatch error carrying a position
and a nonempty set of expected-token descriptions; it never returns a
numeric-overflow error. -/
theorem c3_entry_point_result_shape (s : String) :
    parse_lyrics s = .ok () ∨
    ∃ p ex, parse_lyrics s = .error (.grammarMismatch p ex) ∧ ex ≠ [] := by
  rcases hr : runGrammar s.data with f | r
  · right
    refine ⟨posOf s.data f.1, f.2, ?_, ?_⟩
    · unfold parse_lyrics pestParse
      rw [hr]
      rfl
    · unfold runGrammar at hr
      dsimp only at hr
      exact runLines_error_ne _ _ _ _ _ _ (show FOk none from True.intro) hr
  · left
    unfold parse_lyrics pestParse
    rw [hr]
    rfl

/-- C9: error position monotonicity. Whenever an input extends a
grammar-valid text p by a suffix that makes the parse fail, the position
reported by the entry point of src/src/parser.rs is at or beyond the
length of p: the furthest failure reached, never an earlier one. -/
theorem c9_error_position_monotone (p t : String) (e : ParseError)
    (hok : parse_lyrics p = .ok ()) (herr : parse_lyrics (p ++ t) = .error e) :
    p.length ≤ e.position.offset := by
  obtain ⟨pd⟩ := p
  obtain ⟨td⟩ := t
  rcases hp : runGrammar pd with f | r
  · unfold parse_lyrics pestParse at hok
    rw [show (String.mk pd).data = pd from rfl, hp] at hok
    cases hok
  · rcases hq : runGrammar (pd ++ td) with g | r2
    · unfold parse_lyrics pestParse at herr
      rw [show (String.mk pd ++ String.mk td).data = pd ++ td from rfl, hq] at herr
      have he : e = .grammarMismatch (posOf (pd ++ td) g.1) g.2 := by
        cases herr
        rfl
      unfold runGrammar at hp hq
      dsimp only at hp hq
      have htr : (splitLines pd).2 = [] := runLines_ok_tr_nil _ _ _ _ _ _ hp
      have hsa := splitLines_snd_nil_append pd td htr
      rw [hsa] at hq
      dsimp only at hq
      rw [htr] at hp
      have hge := runLines_prefix_ge (splitLines pd).1 (splitLines td).1
        (splitLines td).2 0 none initState r g hp hq
      have hlen := splitLines_length pd
      rw [htr] at hlen
      subst he
      have hoff : ((ParseError.grammarMismatch (posOf (pd ++ td) g.1) g.2).position).offset
          = g.1 := rfl
      have hpl : (String.mk pd).length = pd.length := rfl
      rw [hoff, hpl]
      simp at hlen
      omega
    · unfold parse_lyrics pestParse at herr
      rw [show (String.mk pd ++ String.mk td).data = pd ++ td from rfl, hq] at herr
      cases herr

/-- C9 witness: the prefix CHORUS newline is grammar valid with length
7, the continuation VERSE bracket 1 bracket x makes the whole input fail
at offset 15, which is at or beyond 7. -/
theorem c9_error_position_monotone_witness :
    ("CHORUS\n" : String).length ≤
      (ParseError.grammarMismatch ⟨2, 9, 15⟩ ["NEWLINE"]).position.offset :=
  c9_error_position_monotone "CHORUS\n" "VERSE[1]x"
    (.grammarMismatch ⟨2, 9, 15⟩ ["NEWLINE"]) rfl rfl

/-- C10: the classifier cascade checks the verse pattern first, so any
line matching it is classified as a verse marker and never as a custom
section marker, even when it also starts with an open bracket and ends
with a close bracket. -/
theorem c10_verse_precedence (s : String) (h : verseRe s = true) :
    classifyLine s = .verseMarker ∧ classifyLine s ≠ .customMarker := by
  constructor
  · simp [classifyLine, h]
  · simp [classifyLine, h]

/-- C10 witness at a line that is both verse shaped and bracket
delimited. -/
theorem c10_verse_precedence_witness :
    classifyLine "[Verse 1]" = .verseMarker ∧
    classifyLine "[Verse 1]" ≠ .customMarker :=
  c10_verse_precedence "[Verse 1]" rfl

end Dslyrics
